import Mathlib

/-!
# Interrop.h: the flat-buffer boundary of the ARAP solver

A shallow embedding of `src/Interrop.h` (namespace `ExternalAccess`):
the four marshaling loops, the class `ARAPSim` (constructor and `Step`) and the
exported functions `Initialize`, `Dispose` and `Step`.

Modelling conventions.

* A C buffer (`double*`, `int*`) is a `List` of its elements.  Reading or
  writing past the end of the list is an access outside the buffer; the
  embedded function then yields `none`.
* `double` is an arbitrary type `α`: the code only copies such values.
* `int` is the 32-bit signed type.  An `int` argument is a `CInt`.  A matrix
  dimension (`Eigen::Index`, 64 bits) is a natural number, and `int rows =
  matrix.rows()` keeps its low 32 bits (`toInt`).  The `indexer`, an `int` that
  starts at 0 and only grows, is a natural number that `indexer++` may not take
  past `INT_MAX`: signed overflow is undefined, and the embedded function then
  yields `none`.
* An Eigen matrix is its shape together with its coefficient function;
  `matrix(i, j)` outside the shape is an access outside the matrix.
* `igl::arap_precomputation` and `igl::arap_solve` belong to libigl, not to this
  repository: they are parameters (`Igl`), functions that return.
-/

namespace ExternalAccess

/-! ## The type `int` -/

/-- The largest value of the C type `int`. -/
def INT_MAX : Nat := 2147483647

/-- The values of the C type `int` (32 bits, two's complement). -/
abbrev CInt := { v : Int // -2147483648 ≤ v ∧ v ≤ 2147483647 }

/-- The conversion of an `Eigen::Index` to `int`, as in `int rows = matrix.rows()`:
the value modulo 2^32, read as a signed 32-bit number. -/
def toInt (n : Nat) : Int :=
  if n % 4294967296 ≤ INT_MAX then ((n % 4294967296 : Nat) : Int)
  else ((n % 4294967296 : Nat) : Int) - 4294967296

/-- The increment in `indexer++`: the counter after it.  At `INT_MAX` the increment
overflows, which the language leaves undefined. -/
def postIncrement (indexer : Nat) : Option Nat :=
  if indexer < INT_MAX then some (indexer + 1) else none

/-! ## Eigen matrices -/

/-- A dense matrix (`Eigen::MatrixXd`, `Eigen::MatrixXi`): shape and coefficients.
Only `coeff i j` with `i < rows` and `j < cols` is a coefficient of the matrix. -/
structure Mat (α : Type) where
  rows : Nat
  cols : Nat
  coeff : Nat → Nat → α

/-- A column vector (`Eigen::VectorXi` is `Matrix<int, Dynamic, 1>`): a matrix
whose `cols()` is 1. -/
abbrev VectorXi := Mat Int

namespace Mat

variable {α : Type}

/-- The default-constructed matrix: 0 x 0. -/
def empty [Inhabited α] : Mat α := ⟨0, 0, fun _ _ => default⟩

/-- The constructor `Matrix(rows, cols)`: coefficients are not initialised. -/
def create [Inhabited α] (rows cols : Nat) : Mat α := ⟨rows, cols, fun _ _ => default⟩

/-- The default-constructed column vector: 0 x 1. -/
def emptyVector [Inhabited α] : Mat α := ⟨0, 1, fun _ _ => default⟩

/-- The call `m.resize(rows, cols)` with `int` arguments: the shape changes, the
coefficients are whatever the storage holds.  Eigen does not size a matrix with a
negative dimension. -/
def resize (m : Mat α) (rows cols : Int) : Option (Mat α) :=
  if 0 ≤ rows ∧ 0 ≤ cols then some ⟨rows.toNat, cols.toNat, m.coeff⟩ else none

/-- The call `v.resize(size)` on a column vector, with an `int` argument. -/
def resizeVector (v : Mat α) (size : Int) : Option (Mat α) :=
  if 0 ≤ size then some ⟨size.toNat, 1, v.coeff⟩ else none

/-- The value of `m.size()`: the number of coefficients. -/
def size (m : Mat α) : Nat := m.rows * m.cols

/-- The assignment `m(i, j) = v`; `none` outside the shape. -/
def set (m : Mat α) (i j : Nat) (v : α) : Option (Mat α) :=
  if i < m.rows ∧ j < m.cols then
    some ⟨m.rows, m.cols, fun i' j' => if i' = i ∧ j' = j then v else m.coeff i' j'⟩
  else none

/-- The read `m(i, j)`; `none` outside the shape. -/
def get (m : Mat α) (i j : Nat) : Option α :=
  if i < m.rows ∧ j < m.cols then some (m.coeff i j) else none

end Mat

/-! ## Marshaling loops -/

/-- The write `array[k] = v`; `none` when `k` is outside the buffer. -/
def store {α : Type} (array : List α) (k : Nat) (v : α) : Option (List α) :=
  if k < array.length then some (array.set k v) else none

/-- The function `ArrayToMatrix(double* array, Eigen::MatrixXd& matrix)`.  The loop
state is the pair `(indexer, matrix)`; the result is the matrix after the loops.
A loop `for (int i = 0; i < rows; ++i)` runs `i` over `0, ..., rows - 1`, and not at
all when `rows` is not positive. -/
def ArrayToMatrix {α : Type} (array : List α) (matrix : Mat α) : Option (Mat α) :=
  let rows : Int := toInt matrix.rows
  let cols : Int := toInt matrix.cols
  let indexer : Nat := 0
  Option.map Prod.snd <|
    (List.range rows.toNat).foldlM (fun st i =>
      (List.range cols.toNat).foldlM (fun (st : Nat × Mat α) j => do
        let v ← array[st.1]?
        let next ← postIncrement st.1
        let m ← st.2.set i j v
        pure (next, m)) st) (indexer, matrix)

/-- The function `ArrayToMatrixI(int* array, Eigen::MatrixXi& matrix)`: the body of
`ArrayToMatrix` with `int` for `double`. -/
def ArrayToMatrixI (array : List Int) (matrix : Mat Int) : Option (Mat Int) :=
  let rows : Int := toInt matrix.rows
  let cols : Int := toInt matrix.cols
  let indexer : Nat := 0
  Option.map Prod.snd <|
    (List.range rows.toNat).foldlM (fun st i =>
      (List.range cols.toNat).foldlM (fun (st : Nat × Mat Int) j => do
        let v ← array[st.1]?
        let next ← postIncrement st.1
        let m ← st.2.set i j v
        pure (next, m)) st) (indexer, matrix)

/-- The function `ArrayToVectorI(int* array, Eigen::VectorXi& vector)`: the same two
loops over a vector, whose `cols()` is 1. -/
def ArrayToVectorI (array : List Int) (vector : VectorXi) : Option VectorXi :=
  let rows : Int := toInt vector.rows
  let cols : Int := toInt vector.cols
  let indexer : Nat := 0
  Option.map Prod.snd <|
    (List.range rows.toNat).foldlM (fun st i =>
      (List.range cols.toNat).foldlM (fun (st : Nat × Mat Int) j => do
        let v ← array[st.1]?
        let next ← postIncrement st.1
        let m ← st.2.set i j v
        pure (next, m)) st) (indexer, vector)

/-- The function `MatrixToArray(Eigen::MatrixXd& matrix, double* array)`.  The loop
state is the pair `(indexer, array)`; the result is the buffer after the loops. -/
def MatrixToArray {α : Type} (matrix : Mat α) (array : List α) : Option (List α) :=
  let rows : Int := toInt matrix.rows
  let cols : Int := toInt matrix.cols
  let indexer : Nat := 0
  Option.map Prod.snd <|
    (List.range rows.toNat).foldlM (fun st i =>
      (List.range cols.toNat).foldlM (fun (st : Nat × List α) j => do
        let v ← matrix.get i j
        let a ← store st.2 st.1 v
        let next ← postIncrement st.1
        pure (next, a)) st) (indexer, array)

/-! ### One iteration of each loop body -/

/-- One iteration of the innermost statement `matrix(i, j) = array[indexer++]`. -/
def cellIn {α : Type} (array : List α) (i : Nat) (st : Nat × Mat α) (j : Nat) :
    Option (Nat × Mat α) := do
  let v ← array[st.1]?
  let next ← postIncrement st.1
  let m ← st.2.set i j v
  pure (next, m)

/-- One iteration of the innermost statement `array[indexer++] = matrix(i, j)`. -/
def cellOut {α : Type} (matrix : Mat α) (i : Nat) (st : Nat × List α) (j : Nat) :
    Option (Nat × List α) := do
  let v ← matrix.get i j
  let a ← store st.2 st.1 v
  let next ← postIncrement st.1
  pure (next, a)

/-! ## The solver library (libigl) -/

/-- The record `igl::ARAPData`.  The source writes two of its fields, the settings
`max_iter` and `with_dynamics`; everything else the library keeps in it is `state`. -/
structure ARAPData (σ : Type) where
  max_iter : CInt
  with_dynamics : Bool
  state : σ

/-- The part of libigl the source calls.  `arap_precomputation(V, F, dim, b, data)`
returns a `bool` and updates `data`; `arap_solve(bc, data, U)` returns a `bool` and
updates `data` and `U`.  In `data` the library reads the settings `max_iter` and
`with_dynamics` and writes fields of its own only, so each function returns the new
`state`.  `defaultData` is a default-constructed `igl::ARAPData`. -/
structure Igl (α σ : Type) where
  defaultData : ARAPData σ
  arap_precomputation : Mat α → Mat Int → Nat → VectorXi → ARAPData σ → Bool × σ
  arap_solve : Mat α → ARAPData σ → Mat α → Bool × σ × Mat α

/-! ## The class `ARAPSim` -/

/-- The data members of `class ARAPSim`. -/
structure ARAPSim (α σ : Type) where
  V : Mat α
  U : Mat α
  F : Mat Int
  S : VectorXi
  b : VectorXi
  arap_data : ARAPData σ

/-- The default constructor `ARAPSim()`: every member is default-constructed. -/
def ARAPSim.defaultConstruct {α σ : Type} [Inhabited α] (igl : Igl α σ) : ARAPSim α σ :=
  { V := Mat.empty, U := Mat.empty, F := Mat.empty,
    S := Mat.emptyVector, b := Mat.emptyVector, arap_data := igl.defaultData }

/-- The constructor `ARAPSim(points, numPoints, triangles, numTris,
indicesOfConstraindedPoints, numConstraints, maxIter)`.  The `bool` that
`igl::arap_precomputation` returns is discarded, as in the source. -/
def ARAPSim.construct {α σ : Type} [Inhabited α] (igl : Igl α σ)
    (points : List α) (numPoints : CInt) (triangles : List Int) (numTris : CInt)
    (indicesOfConstraindedPoints : List Int) (numConstraints : CInt) (maxIter : CInt) :
    Option (ARAPSim α σ) := do
  let self : ARAPSim α σ := ARAPSim.defaultConstruct igl
  let V ← self.V.resize numPoints.val 3
  let F ← self.F.resize numTris.val 3
  let b ← self.b.resizeVector numConstraints.val
  let V ← ArrayToMatrix points V
  let F ← ArrayToMatrixI triangles F
  let b ← ArrayToVectorI indicesOfConstraindedPoints b
  let U := V
  let arap_data := { self.arap_data with max_iter := maxIter }
  let arap_data := { arap_data with with_dynamics := true }
  let arap_data :=
    { arap_data with state := (igl.arap_precomputation V F V.cols b arap_data).2 }
  pure { V := V, U := U, F := F, S := self.S, b := b, arap_data := arap_data }

/-- The method `ARAPSim::Step(constrainedPositionValues, solution)`: the session and
the output buffer after the call.  The `bool` that `igl::arap_solve` returns is
discarded, as in the source. -/
def ARAPSim.Step {α σ : Type} [Inhabited α] (igl : Igl α σ) (self : ARAPSim α σ)
    (constrainedPositionValues : List α) (solution : List α) :
    Option (ARAPSim α σ × List α) := do
  let bc : Mat α := Mat.create self.b.size self.V.cols
  let bc ← ArrayToMatrix constrainedPositionValues bc
  let solved := (igl.arap_solve bc self.arap_data self.U).2
  let solution ← MatrixToArray solved.2 solution
  pure ({ self with arap_data := { self.arap_data with state := solved.1 },
                    U := solved.2 }, solution)

/-- A run of `Step` calls on one session, each with its own targets and its own
output buffer; the session after the last call. -/
def ARAPSim.Steps {α σ : Type} [Inhabited α] (igl : Igl α σ) :
    ARAPSim α σ → List (List α × List α) → Option (ARAPSim α σ)
  | self, [] => some self
  | self, call :: calls =>
    match self.Step igl call.1 call.2 with
    | some next => ARAPSim.Steps igl next.1 calls
    | none => none

/-! ## The exported functions -/

/-- The error kinds the specification names (its section 7).  The source declares no
error type, throws nothing and returns no status. -/
inductive ErrorKind where
  | InvalidTopology
  | EmptyConstraintSet
  | InvalidConstraintIndex
  | SingularSystem
  | UseAfterDispose
  deriving DecidableEq, Repr

/-- How a call of an exported function ends: it returns, it reports an error kind,
or it accesses memory it does not own (behaviour the language leaves undefined). -/
inductive Outcome (β : Type) where
  | returned (value : β)
  | failed (error : ErrorKind)
  | undefined

/-- A session handle (`void*`): the address of a cell of the heap. -/
abbrev Handle := Nat

/-- The sessions allocated with `new`, by address; a cell is `none` once it has been
passed to `delete`. -/
abbrev Heap (α σ : Type) := List (Option (ARAPSim α σ))

/-- The exported function `Initialize`: `return new ARAPSim(...)`.  The new session
gets a fresh address. -/
def Initialize {α σ : Type} [Inhabited α] (igl : Igl α σ) (heap : Heap α σ)
    (points : List α) (numPoints : CInt) (triangles : List Int) (numTris : CInt)
    (indicesOfConstraindedPoints : List Int) (numConstraints : CInt) (maxIter : CInt) :
    Outcome (Handle × Heap α σ) :=
  match ARAPSim.construct igl points numPoints triangles numTris
      indicesOfConstraindedPoints numConstraints maxIter with
  | some sim => Outcome.returned (heap.length, heap ++ [some sim])
  | none => Outcome.undefined

/-- The exported function `Dispose`: `delete handle`, which frees the session's cell.
(`handle` is a `void*`, so no destructor runs; the storage the members own is not
part of the heap modelled here.)  Deleting an address that holds no live session is
undefined. -/
def Dispose {α σ : Type} (heap : Heap α σ) (handle : Handle) : Outcome (Heap α σ) :=
  match heap[handle]? with
  | some (some _) => Outcome.returned (heap.set handle none)
  | _ => Outcome.undefined

/-- The exported function `Step`: `ptr->Step(constrainedPositionValues, solution)`.
Calling through an address that holds no live session is undefined. -/
def Step {α σ : Type} [Inhabited α] (igl : Igl α σ) (heap : Heap α σ) (handle : Handle)
    (constrainedPositionValues : List α) (solution : List α) :
    Outcome (Heap α σ × List α) :=
  match heap[handle]? with
  | some (some sim) =>
    match sim.Step igl constrainedPositionValues solution with
    | some after => Outcome.returned (heap.set handle (some after.1), after.2)
    | none => Outcome.undefined
  | _ => Outcome.undefined

/-! ## A stand-in library for concrete runs -/

/-- A stand-in for libigl over integer coordinates, used to run the embedding on
concrete inputs: the precomputation remembers `b` and reports success; the solve
moves every constrained vertex `b(k)` to its target row `k` of `bc`, leaves the
other vertices where they are and reports success. -/
def pinningIgl : Igl Int VectorXi where
  defaultData :=
    { max_iter := ⟨10, by decide⟩, with_dynamics := false, state := Mat.emptyVector }
  arap_precomputation := fun _ _ _ b _ => (true, b)
  arap_solve := fun bc data U =>
    (true, data.state,
      { rows := U.rows, cols := U.cols,
        coeff := fun i j =>
          match (List.range bc.rows).find? (fun k => data.state.coeff k 0 == (i : Int)) with
          | some k => bc.coeff k j
          | none => U.coeff i j })

/-- A session over a single triangle with vertices (0,0,0), (4,0,0), (0,5,0) and
vertex 2 constrained, in its state right after creation (`U = V`). -/
def triangleSim : ARAPSim Int VectorXi where
  V := ⟨3, 3, fun i j => ([0, 0, 0, 4, 0, 0, 0, 5, 0] : List Int).getD (3 * i + j) 0⟩
  U := ⟨3, 3, fun i j => ([0, 0, 0, 4, 0, 0, 0, 5, 0] : List Int).getD (3 * i + j) 0⟩
  F := ⟨1, 3, fun _ j => j⟩
  S := Mat.emptyVector
  b := ⟨1, 1, fun _ _ => 2⟩
  arap_data :=
    { max_iter := ⟨10, by decide⟩, with_dynamics := true, state := ⟨1, 1, fun _ _ => 2⟩ }

/-! ## The type `int`: conversions within range -/

theorem toInt_of_le (n : Nat) (h : n ≤ INT_MAX) : toInt n = (n : Int) := by
  unfold toInt
  unfold INT_MAX at *
  have hmod : n % 4294967296 = n := Nat.mod_eq_of_lt (by omega)
  simp [hmod, h]

theorem toInt_toNat_of_le (n : Nat) (h : n ≤ INT_MAX) : (toInt n).toNat = n := by
  rw [toInt_of_le n h, Int.toNat_ofNat]

/-! ## The marshaling loops, step by step -/

theorem ArrayToMatrix_eq {α : Type} (array : List α) (matrix : Mat α) :
    ArrayToMatrix array matrix =
      Option.map Prod.snd ((List.range (toInt matrix.rows).toNat).foldlM
        (fun st i => (List.range (toInt matrix.cols).toNat).foldlM (cellIn array i) st)
        (0, matrix)) := rfl

theorem MatrixToArray_eq {α : Type} (matrix : Mat α) (array : List α) :
    MatrixToArray matrix array =
      Option.map Prod.snd ((List.range (toInt matrix.rows).toNat).foldlM
        (fun st i => (List.range (toInt matrix.cols).toNat).foldlM (cellOut matrix i) st)
        (0, array)) := rfl

theorem ArrayToMatrixI_eq (array : List Int) (matrix : Mat Int) :
    ArrayToMatrixI array matrix = ArrayToMatrix array matrix := rfl

theorem ArrayToVectorI_eq (array : List Int) (vector : VectorXi) :
    ArrayToVectorI array vector = ArrayToMatrix array vector := rfl

/-- A loop whose body does nothing leaves the state as it is. -/
theorem foldlM_idle {β : Type} (l : List Nat) (st : β) :
    l.foldlM (fun (st' : β) (_ : Nat) => (some st' : Option β)) st = some st := by
  induction l with
  | nil => rfl
  | cons a l ih => simpa [List.foldlM_cons] using ih

theorem cellIn_some {α : Type} (array : List α) (i j : Nat) (st : Nat × Mat α)
    (hi : i < st.2.rows) (hj : j < st.2.cols) (hk : st.1 < array.length)
    (hmax : st.1 < INT_MAX) :
    cellIn array i st j = some (st.1 + 1,
      ⟨st.2.rows, st.2.cols,
        fun i' j' => if i' = i ∧ j' = j then array[st.1] else st.2.coeff i' j'⟩) := by
  simp [cellIn, Mat.set, postIncrement, hi, hj, hmax, List.getElem?_eq_getElem hk]

/-- The inner loop of `ArrayToMatrix` over the columns `0 .. n-1` of row `i`. -/
theorem rowIn_spec {α : Type} (array : List α) (i : Nat) (n : Nat) (st : Nat × Mat α)
    (hi : i < st.2.rows) (hn : n ≤ st.2.cols) (hlen : st.1 + n ≤ array.length)
    (hmax : st.1 + n ≤ INT_MAX) :
    ∃ m : Mat α, (List.range n).foldlM (cellIn array i) st = some (st.1 + n, m) ∧
      m.rows = st.2.rows ∧ m.cols = st.2.cols ∧
      (∀ j, j < n → array[st.1 + j]? = some (m.coeff i j)) ∧
      (∀ i' j', ¬ (i' = i ∧ j' < n) → m.coeff i' j' = st.2.coeff i' j') := by
  induction n with
  | zero => exact ⟨st.2, by simp, rfl, rfl, by simp, by simp⟩
  | succ n ih =>
    obtain ⟨m, hrun, hr, hc, hread, hkeep⟩ := ih (by omega) (by omega) (by omega)
    have hk : st.1 + n < array.length := by omega
    have hstep := cellIn_some array i n (st.1 + n, m) (by simpa [hr] using hi)
      (by simp only [hc]; omega) hk (by simp only; omega)
    refine ⟨⟨m.rows, m.cols,
      fun i' j' => if i' = i ∧ j' = n then array[st.1 + n] else m.coeff i' j'⟩, ?_, ?_, ?_, ?_, ?_⟩
    · rw [List.range_succ, List.foldlM_append, hrun]
      simp only [Option.bind_eq_bind, Option.some_bind, List.foldlM_cons, List.foldlM_nil, hstep]
      rfl
    · exact hr
    · exact hc
    · intro j hj
      by_cases hjn : j = n
      · subst hjn
        simp [List.getElem?_eq_getElem hk]
      · have hj' : j < n := by omega
        simp only [hjn, and_false, if_false]
        exact hread j hj'
    · intro i' j' hne
      have h1 : ¬ (i' = i ∧ j' = n) := fun h => hne ⟨h.1, by omega⟩
      have h2 : ¬ (i' = i ∧ j' < n) := fun h => hne ⟨h.1, by omega⟩
      simp only [h1, if_false]
      exact hkeep i' j' h2

/-- The outer loop of `ArrayToMatrix` over the rows `0 .. n-1`. -/
theorem rowsIn_spec {α : Type} (array : List α) (n : Nat) (st : Nat × Mat α)
    (hn : n ≤ st.2.rows) (hlen : st.1 + n * st.2.cols ≤ array.length)
    (hmax : st.1 + n * st.2.cols ≤ INT_MAX) :
    ∃ m : Mat α,
      (List.range n).foldlM
        (fun st' i => (List.range st.2.cols).foldlM (cellIn array i) st') st
        = some (st.1 + n * st.2.cols, m) ∧
      m.rows = st.2.rows ∧ m.cols = st.2.cols ∧
      (∀ i j, i < n → j < st.2.cols →
        array[st.1 + (i * st.2.cols + j)]? = some (m.coeff i j)) ∧
      (∀ i' j', ¬ (i' < n ∧ j' < st.2.cols) → m.coeff i' j' = st.2.coeff i' j') := by
  induction n with
  | zero => exact ⟨st.2, by simp, rfl, rfl, by simp, by simp⟩
  | succ n ih =>
    have e : (n + 1) * st.2.cols = n * st.2.cols + st.2.cols := Nat.succ_mul n st.2.cols
    obtain ⟨m1, hrun, hr, hc, hread, hkeep⟩ := ih (by omega) (by omega) (by omega)
    obtain ⟨m2, hrun2, hr2, hc2, hread2, hkeep2⟩ :=
      rowIn_spec array n st.2.cols (st.1 + n * st.2.cols, m1)
        (by simp only [hr]; omega) (by simp only [hc]; omega) (by simp only; omega)
        (by simp only; omega)
    simp only at hrun2 hr2 hc2 hread2 hkeep2
    refine ⟨m2, ?_, by rw [hr2, hr], by rw [hc2, hc], ?_, ?_⟩
    · rw [List.range_succ, List.foldlM_append, hrun]
      simp only [Option.bind_eq_bind, Option.some_bind, List.foldlM_cons, List.foldlM_nil, hrun2]
      simp only [e, Nat.add_assoc]
      rfl
    · intro i j hi hj
      by_cases hin : i = n
      · subst hin
        rw [← hread2 j hj, Nat.add_assoc]
      · rw [hkeep2 i j (fun h => hin h.1)]
        exact hread i j (by omega) hj
    · intro i' j' hne
      rw [hkeep2 i' j' (fun h => hne ⟨by omega, h.2⟩)]
      exact hkeep i' j' (fun h => hne ⟨by omega, h.2⟩)

/-- On a matrix without coefficients `ArrayToMatrix` returns it as it is. -/
theorem ArrayToMatrix_empty {α : Type} (array : List α) (matrix : Mat α)
    (h : matrix.rows = 0 ∨ matrix.cols = 0) :
    ArrayToMatrix array matrix = some matrix := by
  rw [ArrayToMatrix_eq]
  rcases h with h | h
  · rw [h]
    rfl
  · rw [h]
    have hz : (toInt 0).toNat = 0 := by decide
    rw [hz]
    simp only [List.range_zero, List.foldlM_nil]
    have := foldlM_idle (List.range (toInt matrix.rows).toNat) ((0, matrix) : Nat × Mat α)
    simp only [Option.pure_def]
    rw [this]
    rfl

/-- What `ArrayToMatrix` does on a matrix of at most `INT_MAX` coefficients and a
buffer that holds at least that many elements: it returns, keeps the shape, fills the
matrix in row-major order and touches nothing outside the shape. -/
theorem ArrayToMatrix_spec {α : Type} (array : List α) (matrix : Mat α)
    (hmax : matrix.rows * matrix.cols ≤ INT_MAX)
    (hlen : matrix.rows * matrix.cols ≤ array.length) :
    ∃ m : Mat α, ArrayToMatrix array matrix = some m ∧
      m.rows = matrix.rows ∧ m.cols = matrix.cols ∧
      (∀ i j, i < matrix.rows → j < matrix.cols →
        array[i * matrix.cols + j]? = some (m.coeff i j)) ∧
      (∀ i' j', ¬ (i' < matrix.rows ∧ j' < matrix.cols) →
        m.coeff i' j' = matrix.coeff i' j') := by
  by_cases h0 : matrix.rows = 0 ∨ matrix.cols = 0
  · refine ⟨matrix, ArrayToMatrix_empty array matrix h0, rfl, rfl, ?_, fun _ _ _ => rfl⟩
    intro i j hi hj
    rcases h0 with h0 | h0 <;> omega
  · have hrpos : 0 < matrix.rows := by omega
    have hcpos : 0 < matrix.cols := by omega
    have hr : matrix.rows ≤ INT_MAX :=
      Nat.le_trans (Nat.le_mul_of_pos_right _ hcpos) hmax
    have hc : matrix.cols ≤ INT_MAX :=
      Nat.le_trans (Nat.le_mul_of_pos_left _ hrpos) hmax
    obtain ⟨m, hrun, hr', hc', hread, hkeep⟩ :=
      rowsIn_spec array matrix.rows (0, matrix) (Nat.le_refl _) (by simpa using hlen)
        (by simpa using hmax)
    simp only [Nat.zero_add] at hrun hread
    refine ⟨m, ?_, hr', hc', hread, hkeep⟩
    rw [ArrayToMatrix_eq, toInt_toNat_of_le _ hr, toInt_toNat_of_le _ hc, hrun]
    rfl

theorem cellOut_some {α : Type} (matrix : Mat α) (i j : Nat) (st : Nat × List α)
    (hi : i < matrix.rows) (hj : j < matrix.cols) (hk : st.1 < st.2.length)
    (hmax : st.1 < INT_MAX) :
    cellOut matrix i st j = some (st.1 + 1, st.2.set st.1 (matrix.coeff i j)) := by
  simp [cellOut, Mat.get, store, postIncrement, hi, hj, hk, hmax]

/-- The inner loop of `MatrixToArray` over the columns `0 .. n-1` of row `i`. -/
theorem rowOut_spec {α : Type} (matrix : Mat α) (i : Nat) (n : Nat) (st : Nat × List α)
    (hi : i < matrix.rows) (hn : n ≤ matrix.cols) (hlen : st.1 + n ≤ st.2.length)
    (hmax : st.1 + n ≤ INT_MAX) :
    ∃ a : List α, (List.range n).foldlM (cellOut matrix i) st = some (st.1 + n, a) ∧
      a.length = st.2.length ∧
      (∀ j, j < n → a[st.1 + j]? = some (matrix.coeff i j)) ∧
      (∀ p, ¬ (st.1 ≤ p ∧ p < st.1 + n) → a[p]? = st.2[p]?) := by
  induction n with
  | zero => exact ⟨st.2, by simp, rfl, by simp, by simp⟩
  | succ n ih =>
    obtain ⟨a, hrun, hl, hread, hkeep⟩ := ih (by omega) (by omega) (by omega)
    have hk : st.1 + n < a.length := by omega
    have hstep := cellOut_some matrix i n (st.1 + n, a) hi (by omega) hk (by simp only; omega)
    simp only at hstep
    refine ⟨a.set (st.1 + n) (matrix.coeff i n), ?_, ?_, ?_, ?_⟩
    · rw [List.range_succ, List.foldlM_append, hrun]
      simp only [Option.bind_eq_bind, Option.some_bind, List.foldlM_cons, List.foldlM_nil, hstep]
      rfl
    · rw [List.length_set, hl]
    · intro j hj
      by_cases hjn : j = n
      · subst hjn
        rw [List.getElem?_set_self hk]
      · rw [List.getElem?_set_ne (by omega)]
        exact hread j (by omega)
    · intro p hp
      rw [List.getElem?_set_ne (by omega)]
      exact hkeep p (by omega)

/-- The outer loop of `MatrixToArray` over the rows `0 .. n-1`. -/
theorem rowsOut_spec {α : Type} (matrix : Mat α) (n : Nat) (st : Nat × List α)
    (hn : n ≤ matrix.rows) (hlen : st.1 + n * matrix.cols ≤ st.2.length)
    (hmax : st.1 + n * matrix.cols ≤ INT_MAX) :
    ∃ a : List α,
      (List.range n).foldlM
        (fun st' i => (List.range matrix.cols).foldlM (cellOut matrix i) st') st
        = some (st.1 + n * matrix.cols, a) ∧
      a.length = st.2.length ∧
      (∀ i j, i < n → j < matrix.cols →
        a[st.1 + (i * matrix.cols + j)]? = some (matrix.coeff i j)) ∧
      (∀ p, ¬ (st.1 ≤ p ∧ p < st.1 + n * matrix.cols) → a[p]? = st.2[p]?) := by
  induction n with
  | zero => exact ⟨st.2, by simp, rfl, by simp, by simp⟩
  | succ n ih =>
    have e : (n + 1) * matrix.cols = n * matrix.cols + matrix.cols :=
      Nat.succ_mul n matrix.cols
    obtain ⟨a1, hrun, hl, hread, hkeep⟩ := ih (by omega) (by omega) (by omega)
    obtain ⟨a2, hrun2, hl2, hread2, hkeep2⟩ :=
      rowOut_spec matrix n matrix.cols (st.1 + n * matrix.cols, a1)
        (by omega) (Nat.le_refl _) (by simp only; omega) (by simp only; omega)
    simp only at hrun2 hl2 hread2 hkeep2
    refine ⟨a2, ?_, by rw [hl2, hl], ?_, ?_⟩
    · rw [List.range_succ, List.foldlM_append, hrun]
      simp only [Option.bind_eq_bind, Option.some_bind, List.foldlM_cons, List.foldlM_nil, hrun2]
      simp only [e, Nat.add_assoc]
      rfl
    · intro i j hi hj
      by_cases hin : i = n
      · subst hin
        rw [← hread2 j hj, Nat.add_assoc]
      · have hlt : (i + 1) * matrix.cols ≤ n * matrix.cols :=
          Nat.mul_le_mul_right _ (by omega)
        rw [Nat.succ_mul] at hlt
        rw [hkeep2 _ (by omega)]
        exact hread i j (by omega) hj
    · intro p hp
      rw [hkeep2 p (by omega)]
      exact hkeep p (by omega)

/-- On a matrix without coefficients `MatrixToArray` returns the buffer as it is. -/
theorem MatrixToArray_empty {α : Type} (matrix : Mat α) (array : List α)
    (h : matrix.rows = 0 ∨ matrix.cols = 0) :
    MatrixToArray matrix array = some array := by
  rw [MatrixToArray_eq]
  rcases h with h | h
  · rw [h]
    rfl
  · rw [h]
    have hz : (toInt 0).toNat = 0 := by decide
    rw [hz]
    simp only [List.range_zero, List.foldlM_nil]
    have := foldlM_idle (List.range (toInt matrix.rows).toNat) ((0, array) : Nat × List α)
    simp only [Option.pure_def]
    rw [this]
    rfl

/-- What `MatrixToArray` does on a matrix of at most `INT_MAX` coefficients and a
buffer that holds at least that many elements: it returns, writes the coefficients in
row-major order into the first `rows * cols` places and leaves every other place of
the buffer as it was. -/
theorem MatrixToArray_spec {α : Type} (matrix : Mat α) (array : List α)
    (hmax : matrix.rows * matrix.cols ≤ INT_MAX)
    (hlen : matrix.rows * matrix.cols ≤ array.length) :
    ∃ a : List α, MatrixToArray matrix array = some a ∧
      a.length = array.length ∧
      (∀ i j, i < matrix.rows → j < matrix.cols →
        a[i * matrix.cols + j]? = some (matrix.coeff i j)) ∧
      (∀ p, matrix.rows * matrix.cols ≤ p → a[p]? = array[p]?) := by
  by_cases h0 : matrix.rows = 0 ∨ matrix.cols = 0
  · refine ⟨array, MatrixToArray_empty matrix array h0, rfl, ?_, fun _ _ => rfl⟩
    intro i j hi hj
    rcases h0 with h0 | h0 <;> omega
  · have hrpos : 0 < matrix.rows := by omega
    have hcpos : 0 < matrix.cols := by omega
    have hr : matrix.rows ≤ INT_MAX :=
      Nat.le_trans (Nat.le_mul_of_pos_right _ hcpos) hmax
    have hc : matrix.cols ≤ INT_MAX :=
      Nat.le_trans (Nat.le_mul_of_pos_left _ hrpos) hmax
    obtain ⟨a, hrun, hl, hread, hkeep⟩ :=
      rowsOut_spec matrix matrix.rows (0, array) (Nat.le_refl _) (by simpa using hlen)
        (by simpa using hmax)
    simp only [Nat.zero_add] at hrun hread hkeep
    refine ⟨a, ?_, hl, hread, fun p hp => hkeep p (by omega)⟩
    rw [MatrixToArray_eq, toInt_toNat_of_le _ hr, toInt_toNat_of_le _ hc, hrun]
    rfl


/-! ## When the loops do not complete -/

theorem cellIn_none {α : Type} (array : List α) (i j : Nat) (st : Nat × Mat α)
    (h : ¬ (st.1 < array.length ∧ st.1 < INT_MAX)) :
    cellIn array i st j = none := by
  unfold cellIn
  by_cases hlen : st.1 < array.length
  · have hmax : ¬ st.1 < INT_MAX := fun hm => h ⟨hlen, hm⟩
    simp [postIncrement, hmax, List.getElem?_eq_getElem hlen]
  · simp [List.getElem?_eq_none (Nat.le_of_not_lt hlen)]

/-- The inner loop of `ArrayToMatrix` does not complete when it runs past the end of
the buffer or past `INT_MAX`. -/
theorem rowIn_fail {α : Type} (array : List α) (i : Nat) (n : Nat) (st : Nat × Mat α)
    (hi : i < st.2.rows) (hn : n ≤ st.2.cols)
    (h0 : st.1 ≤ array.length ∧ st.1 ≤ INT_MAX)
    (hbad : ¬ (st.1 + n ≤ array.length ∧ st.1 + n ≤ INT_MAX)) :
    (List.range n).foldlM (cellIn array i) st = none := by
  induction n with
  | zero => exact absurd h0 hbad
  | succ n ih =>
    rw [List.range_succ, List.foldlM_append]
    by_cases hgood : st.1 + n ≤ array.length ∧ st.1 + n ≤ INT_MAX
    · obtain ⟨m, hrun, -⟩ := rowIn_spec array i n st hi (by omega) hgood.1 hgood.2
      rw [hrun]
      simp only [Option.bind_eq_bind, Option.some_bind, List.foldlM_cons, List.foldlM_nil]
      rw [cellIn_none array i n (st.1 + n, m) (by simp only; omega)]
      rfl
    · rw [ih (by omega) hgood]
      rfl

/-- The outer loop of `ArrayToMatrix` does not complete when it runs past the end of
the buffer or past `INT_MAX`. -/
theorem rowsIn_fail {α : Type} (array : List α) (n : Nat) (st : Nat × Mat α)
    (hn : n ≤ st.2.rows)
    (h0 : st.1 ≤ array.length ∧ st.1 ≤ INT_MAX)
    (hbad : ¬ (st.1 + n * st.2.cols ≤ array.length ∧ st.1 + n * st.2.cols ≤ INT_MAX)) :
    (List.range n).foldlM
      (fun st' i => (List.range st.2.cols).foldlM (cellIn array i) st') st = none := by
  induction n with
  | zero => exact absurd (by simpa using h0) hbad
  | succ n ih =>
    have e : (n + 1) * st.2.cols = n * st.2.cols + st.2.cols := Nat.succ_mul n st.2.cols
    rw [List.range_succ, List.foldlM_append]
    by_cases hgood : st.1 + n * st.2.cols ≤ array.length ∧ st.1 + n * st.2.cols ≤ INT_MAX
    · obtain ⟨m, hrun, hr, hc, -⟩ := rowsIn_spec array n st (by omega) hgood.1 hgood.2
      rw [hrun]
      simp only [Option.bind_eq_bind, Option.some_bind, List.foldlM_cons, List.foldlM_nil]
      rw [rowIn_fail array n st.2.cols (st.1 + n * st.2.cols, m)
        (by simp only [hr]; omega) (by simp only [hc]; omega) hgood
        (by simp only; omega)]
      rfl
    · rw [ih (by omega) hgood]
      rfl

/-- On a matrix whose dimensions are `int`s, `ArrayToMatrix` does not complete when
the buffer holds fewer than `rows * cols` elements or `rows * cols` exceeds
`INT_MAX`. -/
theorem ArrayToMatrix_none {α : Type} (array : List α) (matrix : Mat α)
    (hr : matrix.rows ≤ INT_MAX) (hc : matrix.cols ≤ INT_MAX)
    (hbad : ¬ (matrix.rows * matrix.cols ≤ array.length ∧
      matrix.rows * matrix.cols ≤ INT_MAX)) :
    ArrayToMatrix array matrix = none := by
  rw [ArrayToMatrix_eq, toInt_toNat_of_le _ hr, toInt_toNat_of_le _ hc,
    rowsIn_fail array matrix.rows (0, matrix) (Nat.le_refl _)
      ⟨Nat.zero_le _, Nat.zero_le _⟩ (by simpa using hbad)]
  rfl

/-- Whenever `ArrayToMatrix` completes on a matrix whose dimensions are `int`s, the
indexer stayed within `INT_MAX` and within the buffer, and the matrix it returns has
the same shape and holds the buffer in row-major order. -/
theorem ArrayToMatrix_of_some {α : Type} (array : List α) (matrix m : Mat α)
    (hr : matrix.rows ≤ INT_MAX) (hc : matrix.cols ≤ INT_MAX)
    (h : ArrayToMatrix array matrix = some m) :
    (matrix.rows * matrix.cols ≤ INT_MAX ∧ matrix.rows * matrix.cols ≤ array.length) ∧
      m.rows = matrix.rows ∧ m.cols = matrix.cols ∧
      (∀ i j, i < matrix.rows → j < matrix.cols →
        array[i * matrix.cols + j]? = some (m.coeff i j)) := by
  by_cases hgood : matrix.rows * matrix.cols ≤ array.length ∧
      matrix.rows * matrix.cols ≤ INT_MAX
  · obtain ⟨m', hm', hr', hc', he, -⟩ := ArrayToMatrix_spec array matrix hgood.2 hgood.1
    rw [hm'] at h
    cases h
    exact ⟨⟨hgood.2, hgood.1⟩, hr', hc', he⟩
  · rw [ArrayToMatrix_none array matrix hr hc hgood] at h
    cases h

/-- What the constructor does on counts within the range of the `int` indexer and
buffers that hold the announced numbers of elements: it returns a session whose
`V`, `F` and `b` hold the three buffers in row-major order, whose `U` is `V`, and
whose solver data has `max_iter = maxIter`, `with_dynamics = true` and the state the
precomputation returns for `V`, `F`, `b` and these settings. -/
theorem construct_spec {α σ : Type} [Inhabited α] (igl : Igl α σ)
    (points : List α) (numPoints : CInt) (triangles : List Int) (numTris : CInt)
    (indices : List Int) (numConstraints : CInt) (maxIter : CInt)
    (n t c : Nat)
    (hn : numPoints.val = (n : Int)) (ht : numTris.val = (t : Int))
    (hc : numConstraints.val = (c : Int))
    (hnmax : 3 * n ≤ INT_MAX) (htmax : 3 * t ≤ INT_MAX)
    (hp : 3 * n ≤ points.length) (htl : 3 * t ≤ triangles.length)
    (hcl : c ≤ indices.length) :
    ∃ (V : Mat α) (F : Mat Int) (b : VectorXi),
      ARAPSim.construct igl points numPoints triangles numTris indices numConstraints maxIter
        = some { V := V, U := V, F := F, S := Mat.emptyVector, b := b,
                 arap_data :=
                   { max_iter := maxIter, with_dynamics := true,
                     state := (igl.arap_precomputation V F V.cols b
                       { max_iter := maxIter, with_dynamics := true,
                         state := igl.defaultData.state }).2 } } ∧
      (V.rows = n ∧ V.cols = 3 ∧
        ∀ i j, i < n → j < 3 → points[i * 3 + j]? = some (V.coeff i j)) ∧
      (F.rows = t ∧ F.cols = 3 ∧
        ∀ k j, k < t → j < 3 → triangles[k * 3 + j]? = some (F.coeff k j)) ∧
      (b.rows = c ∧ b.cols = 1 ∧
        ∀ k, k < c → indices[k]? = some (b.coeff k 0)) := by
  have hcmax : c ≤ INT_MAX := by
    have := numConstraints.property.2
    unfold INT_MAX
    omega
  obtain ⟨V, hV, hVr, hVc, hVe, -⟩ :=
    ArrayToMatrix_spec points (⟨n, 3, (Mat.empty : Mat α).coeff⟩ : Mat α)
      (by simp only; omega) (by simp only; omega)
  obtain ⟨F, hF, hFr, hFc, hFe, -⟩ :=
    ArrayToMatrix_spec triangles (⟨t, 3, (Mat.empty : Mat Int).coeff⟩ : Mat Int)
      (by simp only; omega) (by simp only; omega)
  obtain ⟨b, hb, hbr, hbc, hbe, -⟩ :=
    ArrayToMatrix_spec indices (⟨c, 1, (Mat.emptyVector : Mat Int).coeff⟩ : Mat Int)
      (by simp only; omega) (by simp only; omega)
  refine ⟨V, F, b, ?_, ⟨hVr, hVc, hVe⟩, ⟨hFr, hFc, hFe⟩, hbr, hbc, ?_⟩
  · simp only [ARAPSim.construct, ARAPSim.defaultConstruct, Mat.resize, Mat.resizeVector,
      hn, ht, hc, Int.toNat_ofNat, Int.ofNat_nonneg, Nat.cast_nonneg, and_self, if_true,
      ArrayToMatrixI_eq, ArrayToVectorI_eq, Option.bind_eq_bind, Option.some_bind]
    simp only [Int.toNat_ofNat, show (Int.toNat 3) = 3 from rfl, show (0 : Int) ≤ 3 from by decide,
      and_true, if_true, Option.some_bind, hV, hF, hb]
    rfl
  · intro k hk
    have := hbe k 0 hk (Nat.zero_lt_one)
    simpa using this

/-- The method `Step` once the targets have been marshaled into `bc`. -/
theorem ARAPSim.Step_eq {α σ : Type} [Inhabited α] (igl : Igl α σ) (self : ARAPSim α σ)
    (cpv solution : List α) (bc : Mat α)
    (hbc : ArrayToMatrix cpv (Mat.create self.b.size self.V.cols) = some bc) :
    self.Step igl cpv solution =
      (MatrixToArray (igl.arap_solve bc self.arap_data self.U).2.2 solution).map
        (fun out =>
          ({ self with
              arap_data := { self.arap_data with
                state := (igl.arap_solve bc self.arap_data self.U).2.1 },
              U := (igl.arap_solve bc self.arap_data self.U).2.2 }, out)) := by
  simp only [ARAPSim.Step, hbc, Option.bind_eq_bind, Option.some_bind]
  cases MatrixToArray (igl.arap_solve bc self.arap_data self.U).2.2 solution <;> rfl

/-- Whenever the constructor returns, the three counts are not negative, the session
holds the three buffers in row-major order in `V`, `F` and `b`, `U` is `V`, and the
solver data has `max_iter = maxIter`, `with_dynamics = true` and the state the
precomputation returned for the session's `V`, `F`, `b` and these settings. -/
theorem construct_of_some {α σ : Type} [Inhabited α] (igl : Igl α σ)
    (points : List α) (numPoints : CInt) (triangles : List Int) (numTris : CInt)
    (indices : List Int) (numConstraints : CInt) (maxIter : CInt) (sim : ARAPSim α σ)
    (h : ARAPSim.construct igl points numPoints triangles numTris indices numConstraints
      maxIter = some sim) :
    (0 ≤ numPoints.val ∧ 0 ≤ numTris.val ∧ 0 ≤ numConstraints.val) ∧
    sim.U = sim.V ∧
    (sim.V.rows = numPoints.val.toNat ∧ sim.V.cols = 3 ∧
      ∀ i j, i < numPoints.val.toNat → j < 3 →
        points[i * 3 + j]? = some (sim.V.coeff i j)) ∧
    (sim.F.rows = numTris.val.toNat ∧ sim.F.cols = 3 ∧
      ∀ k j, k < numTris.val.toNat → j < 3 →
        triangles[k * 3 + j]? = some (sim.F.coeff k j)) ∧
    (sim.b.rows = numConstraints.val.toNat ∧ sim.b.cols = 1 ∧
      ∀ k, k < numConstraints.val.toNat → indices[k]? = some (sim.b.coeff k 0)) ∧
    (sim.arap_data.max_iter = maxIter ∧ sim.arap_data.with_dynamics = true ∧
      sim.arap_data.state = (igl.arap_precomputation sim.V sim.F sim.V.cols sim.b
        { max_iter := maxIter, with_dynamics := true,
          state := igl.defaultData.state }).2) := by
  have hP := numPoints.property.2
  have hT := numTris.property.2
  have hC := numConstraints.property.2
  simp only [ARAPSim.construct, Option.bind_eq_bind, Option.bind_eq_some, Option.pure_def,
    Option.some.injEq, Mat.resize, Mat.resizeVector, ArrayToMatrixI_eq, ArrayToVectorI_eq,
    Option.ite_none_right_eq_some] at h
  obtain ⟨V0, ⟨⟨hn, -⟩, hV0⟩, F0, ⟨⟨ht, -⟩, hF0⟩, b0, ⟨hc, hb0⟩, V, hV, F, hF, b, hb, rfl⟩ := h
  subst hV0 hF0 hb0
  obtain ⟨-, hVr, hVc, hVe⟩ := ArrayToMatrix_of_some points _ V
    (by simp only [INT_MAX]; omega) (by simp only [INT_MAX]; decide) hV
  obtain ⟨-, hFr, hFc, hFe⟩ := ArrayToMatrix_of_some triangles _ F
    (by simp only [INT_MAX]; omega) (by simp only [INT_MAX]; decide) hF
  obtain ⟨-, hbr, hbc, hbe⟩ := ArrayToMatrix_of_some indices _ b
    (by simp only [INT_MAX]; omega) (by simp only [INT_MAX]; decide) hb
  refine ⟨⟨hn, ht, hc⟩, rfl, ⟨hVr, hVc, hVe⟩, ⟨hFr, hFc, hFe⟩, ⟨hbr, hbc, ?_⟩, rfl, rfl, rfl⟩
  intro k hk
  have := hbe k 0 hk Nat.zero_lt_one
  simpa using this

/-- C1, as stated, fails: for a 2147483648 x 1 matrix and a buffer of 2147483648
ones, `int rows = matrix.rows()` is negative, the loops do not run, and entry (0, 0)
keeps its old value 0 although `array[0]` is 1. -/
theorem ArrayToMatrix_row_major_counterexample :
    2147483648 * 1 ≤ (List.replicate 2147483648 (1 : Int)).length ∧
    (List.replicate 2147483648 (1 : Int))[0 * 1 + 0]? = some 1 ∧
    ∃ m : Mat Int,
      ArrayToMatrix (List.replicate 2147483648 (1 : Int)) ⟨2147483648, 1, fun _ _ => 0⟩
        = some m ∧
      m.coeff 0 0 = 0 := by
  have hz : (toInt 2147483648).toNat = 0 := by decide
  refine ⟨?_, ?_, ⟨2147483648, 1, fun _ _ => 0⟩, ?_, rfl⟩
  · rw [List.length_replicate]
  · rw [List.getElem?_replicate]
    decide
  · rw [ArrayToMatrix_eq]
    simp only [hz]
    rfl

/-- C1, amended.  Input marshaling is row-major for matrices whose coefficients the
`int` indexer can count.  For every matrix with `rows * cols ≤ INT_MAX` and every
buffer holding at least `rows * cols` elements, `ArrayToMatrix` returns a matrix of
the same shape whose entry `(i, j)` is `array[i * cols + j]` for all `i < rows`,
`j < cols`, and so does `ArrayToMatrixI` on integers; with `cols = 3`, row `i` is
`array[3i], array[3i+1], array[3i+2]`. -/
theorem ArrayToMatrix_row_major {α : Type} (array : List α) (matrix : Mat α)
    (arrayI : List Int) (matrixI : Mat Int)
    (hmax : matrix.rows * matrix.cols ≤ INT_MAX)
    (hmaxI : matrixI.rows * matrixI.cols ≤ INT_MAX)
    (hlen : matrix.rows * matrix.cols ≤ array.length)
    (hlenI : matrixI.rows * matrixI.cols ≤ arrayI.length) :
    (∃ m : Mat α, ArrayToMatrix array matrix = some m ∧
      m.rows = matrix.rows ∧ m.cols = matrix.cols ∧
      (∀ i j, i < matrix.rows → j < matrix.cols →
        array[i * matrix.cols + j]? = some (m.coeff i j)) ∧
      (matrix.cols = 3 → ∀ i, i < matrix.rows →
        array[3 * i]? = some (m.coeff i 0) ∧ array[3 * i + 1]? = some (m.coeff i 1) ∧
        array[3 * i + 2]? = some (m.coeff i 2))) ∧
    (∃ m : Mat Int, ArrayToMatrixI arrayI matrixI = some m ∧
      m.rows = matrixI.rows ∧ m.cols = matrixI.cols ∧
      (∀ i j, i < matrixI.rows → j < matrixI.cols →
        arrayI[i * matrixI.cols + j]? = some (m.coeff i j)) ∧
      (matrixI.cols = 3 → ∀ i, i < matrixI.rows →
        arrayI[3 * i]? = some (m.coeff i 0) ∧ arrayI[3 * i + 1]? = some (m.coeff i 1) ∧
        arrayI[3 * i + 2]? = some (m.coeff i 2))) := by
  obtain ⟨m, hm, hr, hc, he, -⟩ := ArrayToMatrix_spec array matrix hmax hlen
  obtain ⟨mI, hmI, hrI, hcI, heI, -⟩ := ArrayToMatrix_spec arrayI matrixI hmaxI hlenI
  refine ⟨⟨m, hm, hr, hc, he, ?_⟩, ⟨mI, by rw [ArrayToMatrixI_eq, hmI], hrI, hcI, heI, ?_⟩⟩
  · intro h3 i hi
    have h0 := he i 0 hi (by omega)
    have h1 := he i 1 hi (by omega)
    have h2 := he i 2 hi (by omega)
    rw [h3, Nat.mul_comm] at h0 h1 h2
    exact ⟨h0, h1, h2⟩
  · intro h3 i hi
    have h0 := heI i 0 hi (by omega)
    have h1 := heI i 1 hi (by omega)
    have h2 := heI i 2 hi (by omega)
    rw [h3, Nat.mul_comm] at h0 h1 h2
    exact ⟨h0, h1, h2⟩

/-- C1, amended, at a concrete input: a 2 x 3 matrix filled from seven numbers and a
1 x 3 integer matrix filled from three. -/
theorem ArrayToMatrix_row_major_witness :
    (∃ m : Mat Int, ArrayToMatrix [10, 11, 12, 13, 14, 15, 16] (Mat.create 2 3) = some m ∧
      m.coeff 0 2 = 12 ∧ m.coeff 1 0 = 13 ∧ m.coeff 1 1 = 14) ∧
    (∃ m : Mat Int, ArrayToMatrixI [7, -1, 7] (Mat.create 1 3) = some m ∧
      m.coeff 0 0 = 7 ∧ m.coeff 0 1 = -1 ∧ m.coeff 0 2 = 7) := by
  obtain ⟨⟨m, hm, -, -, he, -⟩, ⟨mI, hmI, -, -, heI, -⟩⟩ :=
    ArrayToMatrix_row_major ([10, 11, 12, 13, 14, 15, 16] : List Int) (Mat.create 2 3)
      [7, -1, 7] (Mat.create 1 3) (by decide) (by decide) (by decide) (by decide)
  refine ⟨⟨m, hm, ?_, ?_, ?_⟩, ⟨mI, hmI, ?_, ?_, ?_⟩⟩
  · simpa [Mat.create] using (he 0 2 (by decide) (by decide)).symm
  · simpa [Mat.create] using (he 1 0 (by decide) (by decide)).symm
  · simpa [Mat.create] using (he 1 1 (by decide) (by decide)).symm
  · simpa [Mat.create] using (heI 0 0 (by decide) (by decide)).symm
  · simpa [Mat.create] using (heI 0 1 (by decide) (by decide)).symm
  · simpa [Mat.create] using (heI 0 2 (by decide) (by decide)).symm

/-- C9, as stated, fails: for a 2147483648 x 1 matrix, a buffer `a` of 2147483648
ones and a fresh buffer of as many zeros, neither `ArrayToMatrix` nor `MatrixToArray`
runs its loops (`int rows` is negative), so the fresh buffer comes back as it was and
not as `a`. -/
theorem marshal_round_trip_counterexample :
    (List.replicate 2147483648 (1 : Int)).length = 2147483648 * 1 ∧
    (List.replicate 2147483648 (0 : Int)).length
      = (List.replicate 2147483648 (1 : Int)).length ∧
    ∃ m : Mat Int,
      ArrayToMatrix (List.replicate 2147483648 (1 : Int)) ⟨2147483648, 1, fun _ _ => 0⟩
        = some m ∧
      MatrixToArray m (List.replicate 2147483648 (0 : Int))
        = some (List.replicate 2147483648 (0 : Int)) ∧
      List.replicate 2147483648 (0 : Int) ≠ List.replicate 2147483648 (1 : Int) := by
  have hz : (toInt 2147483648).toNat = 0 := by decide
  refine ⟨?_, ?_, ⟨2147483648, 1, fun _ _ => 0⟩, ?_, ?_, ?_⟩
  · rw [List.length_replicate]
  · rw [List.length_replicate, List.length_replicate]
  · rw [ArrayToMatrix_eq]
    simp only [hz]
    rfl
  · rw [MatrixToArray_eq]
    simp only [hz]
    rfl
  · intro h
    have h0 := congrArg (fun l : List Int => l[0]?) h
    simp only [List.getElem?_replicate] at h0
    revert h0
    decide

/-- C9, amended.  Marshaling round trip for matrices whose coefficients the `int`
indexer can count.  For every shape with `rows * cols ≤ INT_MAX` and every buffer `a`
of exactly `rows * cols` elements, `ArrayToMatrix` followed by `MatrixToArray` into a
fresh buffer of the same length gives back `a`; and for every matrix `M` with
`rows * cols ≤ INT_MAX`, `MatrixToArray` followed by `ArrayToMatrix` into a matrix of
the same shape gives a matrix of that shape with the coefficients of `M`. -/
theorem marshal_round_trip {α : Type} (a : List α) (matrix : Mat α) (fresh : List α)
    (M : Mat α) (buffer : List α) (D : Mat α)
    (hmax : matrix.rows * matrix.cols ≤ INT_MAX)
    (hMmax : M.rows * M.cols ≤ INT_MAX)
    (ha : a.length = matrix.rows * matrix.cols) (hfresh : fresh.length = a.length)
    (hbuffer : M.rows * M.cols ≤ buffer.length)
    (hDr : D.rows = M.rows) (hDc : D.cols = M.cols) :
    (∃ m : Mat α, ArrayToMatrix a matrix = some m ∧ MatrixToArray m fresh = some a) ∧
    (∃ (out : List α) (m : Mat α), MatrixToArray M buffer = some out ∧
      ArrayToMatrix out D = some m ∧ m.rows = M.rows ∧ m.cols = M.cols ∧
      ∀ i j, i < M.rows → j < M.cols → m.coeff i j = M.coeff i j) := by
  constructor
  · obtain ⟨m, hm, hr, hc, he, -⟩ :=
      ArrayToMatrix_spec a matrix hmax (Nat.le_of_eq ha.symm)
    obtain ⟨out, hout, hl, hw, -⟩ :=
      MatrixToArray_spec m fresh (by rw [hr, hc]; exact hmax) (by rw [hr, hc, hfresh, ha])
    refine ⟨m, hm, ?_⟩
    rw [hout]
    congr 1
    apply List.ext_getElem?
    intro p
    by_cases hp : p < a.length
    · have hpos : 0 < matrix.cols := by
        rcases Nat.eq_zero_or_pos matrix.cols with h0 | h0
        · rw [ha, h0, Nat.mul_zero] at hp
          omega
        · exact h0
      have hi : p / matrix.cols < matrix.rows := by
        rw [Nat.div_lt_iff_lt_mul hpos, ← ha]
        exact hp
      have hj : p % matrix.cols < matrix.cols := Nat.mod_lt _ hpos
      have hpe : p / matrix.cols * matrix.cols + p % matrix.cols = p := Nat.div_add_mod' p _
      have h1 := he _ _ hi hj
      have h2 := hw _ _ (by rw [hr]; exact hi) (by rw [hc]; exact hj)
      rw [hc, hpe] at h2
      rw [hpe] at h1
      rw [h1, h2]
    · rw [List.getElem?_eq_none (by omega), List.getElem?_eq_none (by omega)]
  · obtain ⟨out, hout, hl, hw, -⟩ := MatrixToArray_spec M buffer hMmax hbuffer
    obtain ⟨m, hm, hr, hc, he, -⟩ :=
      ArrayToMatrix_spec out D (by rw [hDr, hDc]; exact hMmax)
        (by rw [hDr, hDc, hl]; exact hbuffer)
    refine ⟨out, m, hout, hm, by rw [hr, hDr], by rw [hc, hDc], ?_⟩
    intro i j hi hj
    have h1 := he i j (by rw [hDr]; exact hi) (by rw [hDc]; exact hj)
    have h2 := hw i j hi hj
    rw [hDc, h2] at h1
    exact (Option.some.inj h1).symm

/-- C9, amended, at a concrete input: six numbers through a 2 x 3 matrix and back,
and a 2 x 2 matrix through a buffer and back. -/
theorem marshal_round_trip_witness :
    (∃ m : Mat Int, ArrayToMatrix [4, 8, 15, 16, 23, 42] (Mat.create 2 3) = some m ∧
      MatrixToArray m [0, 0, 0, 0, 0, 0] = some [4, 8, 15, 16, 23, 42]) ∧
    (∃ (out : List Int) (m : Mat Int),
      MatrixToArray (⟨2, 2, fun i j => 10 * (i : Int) + j⟩ : Mat Int) [0, 0, 0, 0, 5] = some out ∧
      ArrayToMatrix out (Mat.create 2 2) = some m ∧ m.rows = 2 ∧ m.cols = 2 ∧
      ∀ i j, i < 2 → j < 2 → m.coeff i j = 10 * (i : Int) + j) :=
  marshal_round_trip ([4, 8, 15, 16, 23, 42] : List Int) (Mat.create 2 3) [0, 0, 0, 0, 0, 0]
    ⟨2, 2, fun i j => 10 * (i : Int) + j⟩ [0, 0, 0, 0, 5] (Mat.create 2 2)
    (by decide) (by decide) (by decide) (by decide) (by decide) (by decide) (by decide)

/-! ## Session creation -/

/-- C3. At session creation the current solution is the rest shape.  For every input,
every session the constructor returns has `U` equal to `V`, both `numPoints x 3`,
with entry `(i, j)` of each equal to `points[3i + j]`; and the constructor does
return, with such a session, whenever the counts are within reach of the `int`
indexer (`3 * numPoints` and `3 * numTris` at most `INT_MAX`) and the buffers hold
the announced numbers of elements. -/
theorem construct_U_eq_V {α σ : Type} [Inhabited α] (igl : Igl α σ)
    (points : List α) (numPoints : CInt) (triangles : List Int) (numTris : CInt)
    (indices : List Int) (numConstraints : CInt) (maxIter : CInt) :
    (∀ sim : ARAPSim α σ,
      ARAPSim.construct igl points numPoints triangles numTris indices numConstraints maxIter
        = some sim →
      sim.U = sim.V ∧
      (sim.V.rows = numPoints.val.toNat ∧ sim.V.cols = 3) ∧
      (sim.U.rows = numPoints.val.toNat ∧ sim.U.cols = 3) ∧
      ∀ i j, i < numPoints.val.toNat → j < 3 →
        points[3 * i + j]? = some (sim.V.coeff i j) ∧
        points[3 * i + j]? = some (sim.U.coeff i j)) ∧
    (∀ n t c : Nat,
      numPoints.val = (n : Int) → numTris.val = (t : Int) → numConstraints.val = (c : Int) →
      3 * n ≤ INT_MAX → 3 * t ≤ INT_MAX →
      3 * n ≤ points.length → 3 * t ≤ triangles.length → c ≤ indices.length →
      ∃ sim : ARAPSim α σ,
        ARAPSim.construct igl points numPoints triangles numTris indices numConstraints
          maxIter = some sim ∧
        sim.U = sim.V ∧ (sim.V.rows = n ∧ sim.V.cols = 3) ∧
        (sim.U.rows = n ∧ sim.U.cols = 3) ∧
        ∀ i j, i < n → j < 3 →
          points[3 * i + j]? = some (sim.V.coeff i j) ∧
          points[3 * i + j]? = some (sim.U.coeff i j)) := by
  constructor
  · intro sim hsim
    obtain ⟨-, hUV, ⟨hVr, hVc, hVe⟩, -⟩ :=
      construct_of_some igl points numPoints triangles numTris indices numConstraints
        maxIter sim hsim
    refine ⟨hUV, ⟨hVr, hVc⟩, by rw [hUV]; exact ⟨hVr, hVc⟩, ?_⟩
    intro i j hi hj
    have h := hVe i j hi hj
    rw [Nat.mul_comm] at h
    rw [hUV]
    exact ⟨h, h⟩
  · intro n t c hn ht hc hnmax htmax hp htl hcl
    obtain ⟨V, F, b, hsim, ⟨hVr, hVc, hVe⟩, -, -⟩ :=
      construct_spec igl points numPoints triangles numTris indices numConstraints maxIter
        n t c hn ht hc hnmax htmax hp htl hcl
    refine ⟨_, hsim, rfl, ⟨hVr, hVc⟩, ⟨hVr, hVc⟩, ?_⟩
    intro i j hi hj
    have h := hVe i j hi hj
    rw [Nat.mul_comm] at h
    exact ⟨h, h⟩

/-- C3 at a concrete input: a triangle with one constrained vertex. -/
theorem construct_U_eq_V_witness :
    ∃ sim : ARAPSim Int VectorXi,
      ARAPSim.construct pinningIgl [0, 0, 0, 4, 0, 0, 0, 5, 0] ⟨3, by decide⟩ [0, 1, 2]
        ⟨1, by decide⟩ [2] ⟨1, by decide⟩ ⟨10, by decide⟩ = some sim ∧
      sim.U = sim.V ∧ sim.U.rows = 3 ∧ sim.U.cols = 3 ∧
      sim.U.coeff 1 0 = 4 ∧ sim.U.coeff 2 1 = 5 := by
  obtain ⟨sim, hsim, hUV, -, ⟨hr, hc⟩, he⟩ :=
    (construct_U_eq_V pinningIgl [0, 0, 0, 4, 0, 0, 0, 5, 0] ⟨3, by decide⟩ [0, 1, 2]
      ⟨1, by decide⟩ [2] ⟨1, by decide⟩ ⟨10, by decide⟩).2 3 1 1 rfl rfl rfl
      (by decide) (by decide) (by decide) (by decide) (by decide)
  refine ⟨sim, hsim, hUV, hr, hc, ?_, ?_⟩
  · simpa using (he 1 0 (by decide) (by decide)).2.symm
  · simpa using (he 2 1 (by decide) (by decide)).2.symm

/-- C10. The solver configuration is fixed by the constructor alone.  For every input
and every `int` `maxIter`, positive or not, every session the constructor returns has
`max_iter` equal to `maxIter`, stored without any check, and `with_dynamics = true`,
and `Initialize` returns a handle to that session; the constructor does return
whenever the counts are within reach of the `int` indexer and the buffers hold the
announced numbers of elements. -/
theorem construct_solver_config {α σ : Type} [Inhabited α] (igl : Igl α σ)
    (heap : Heap α σ)
    (points : List α) (numPoints : CInt) (triangles : List Int) (numTris : CInt)
    (indices : List Int) (numConstraints : CInt) (maxIter : CInt) :
    (∀ sim : ARAPSim α σ,
      ARAPSim.construct igl points numPoints triangles numTris indices numConstraints maxIter
        = some sim →
      sim.arap_data.max_iter = maxIter ∧ sim.arap_data.with_dynamics = true ∧
      Initialize igl heap points numPoints triangles numTris indices numConstraints maxIter
        = Outcome.returned (heap.length, heap ++ [some sim])) ∧
    (∀ n t c : Nat,
      numPoints.val = (n : Int) → numTris.val = (t : Int) → numConstraints.val = (c : Int) →
      3 * n ≤ INT_MAX → 3 * t ≤ INT_MAX →
      3 * n ≤ points.length → 3 * t ≤ triangles.length → c ≤ indices.length →
      ∃ sim : ARAPSim α σ,
        ARAPSim.construct igl points numPoints triangles numTris indices numConstraints
          maxIter = some sim ∧
        sim.arap_data.max_iter = maxIter ∧ sim.arap_data.with_dynamics = true) := by
  constructor
  · intro sim hsim
    have hinit : Initialize igl heap points numPoints triangles numTris indices
        numConstraints maxIter = Outcome.returned (heap.length, heap ++ [some sim]) := by
      simp only [Initialize, hsim]
    obtain ⟨-, -, -, -, -, hmax, hdyn, -⟩ :=
      construct_of_some igl points numPoints triangles numTris indices numConstraints
        maxIter sim hsim
    exact ⟨hmax, hdyn, hinit⟩
  · intro n t c hn ht hc hnmax htmax hp htl hcl
    obtain ⟨V, F, b, hsim, -⟩ :=
      construct_spec igl points numPoints triangles numTris indices numConstraints maxIter
        n t c hn ht hc hnmax htmax hp htl hcl
    exact ⟨_, hsim, rfl, rfl⟩

/-- C10 at a concrete input: a negative iteration count is stored as it is. -/
theorem construct_solver_config_witness :
    ∃ sim : ARAPSim Int VectorXi,
      ARAPSim.construct pinningIgl [0, 0, 0, 4, 0, 0, 0, 5, 0] ⟨3, by decide⟩ [0, 1, 2]
        ⟨1, by decide⟩ [2] ⟨1, by decide⟩ ⟨-3, by decide⟩ = some sim ∧
      sim.arap_data.max_iter.val = -3 ∧ sim.arap_data.with_dynamics = true := by
  obtain ⟨sim, hsim, hmax, hdyn⟩ :=
    (construct_solver_config pinningIgl [] [0, 0, 0, 4, 0, 0, 0, 5, 0] ⟨3, by decide⟩
      [0, 1, 2] ⟨1, by decide⟩ [2] ⟨1, by decide⟩ ⟨-3, by decide⟩).2 3 1 1 rfl rfl rfl
      (by decide) (by decide) (by decide) (by decide) (by decide)
  exact ⟨sim, hsim, by rw [hmax], hdyn⟩

/-! ## Stepping -/

/-- The method `Step` changes `U` and the library's state only. -/
theorem ARAPSim.Step_frame {α σ : Type} [Inhabited α] (igl : Igl α σ) (self : ARAPSim α σ)
    (cpv solution : List α) (after : ARAPSim α σ × List α)
    (h : self.Step igl cpv solution = some after) :
    after.1.V = self.V ∧ after.1.F = self.F ∧ after.1.S = self.S ∧ after.1.b = self.b := by
  simp only [ARAPSim.Step, Option.bind_eq_bind, Option.bind_eq_some, Option.pure_def,
    Option.some.injEq] at h
  obtain ⟨bc, -, out, -, rfl⟩ := h
  exact ⟨rfl, rfl, rfl, rfl⟩

/-- A run of `Step` calls changes `U` and the library's state only. -/
theorem ARAPSim.Steps_frame {α σ : Type} [Inhabited α] (igl : Igl α σ)
    (calls : List (List α × List α)) (self after : ARAPSim α σ)
    (h : ARAPSim.Steps igl self calls = some after) :
    after.V = self.V ∧ after.F = self.F ∧ after.S = self.S ∧ after.b = self.b := by
  induction calls generalizing self with
  | nil =>
    simp only [ARAPSim.Steps, Option.some.injEq] at h
    subst h
    exact ⟨rfl, rfl, rfl, rfl⟩
  | cons call calls ih =>
    simp only [ARAPSim.Steps] at h
    cases hstep : self.Step igl call.1 call.2 with
    | none => simp [hstep] at h
    | some next =>
      simp only [hstep] at h
      obtain ⟨h1, h2, h3, h4⟩ := ih next.1 h
      obtain ⟨g1, g2, g3, g4⟩ := ARAPSim.Step_frame igl self call.1 call.2 next hstep
      exact ⟨h1.trans g1, h2.trans g2, h3.trans g3, h4.trans g4⟩

/-- C4. Constraint order is preserved between creation and step.  For every input,
in every session the constructor returns and after any run of `Step` calls on it:
`b(k)` is `indicesOfConstraindedPoints[k]` for every `k < numConstraints`, and in
every `Step` call the matrix the targets are marshaled into, which is the one passed
to the solver, is `numConstraints x 3` with row `k` equal to
`(values[3k], values[3k+1], values[3k+2])`.  The constructor does return whenever
the counts are within reach of the `int` indexer and the buffers hold the announced
numbers of elements, and the targets are then marshaled whenever there are
`3 * numConstraints` of them, at most `INT_MAX`. -/
theorem constraint_order_preserved {α σ : Type} [Inhabited α] (igl : Igl α σ)
    (points : List α) (numPoints : CInt) (triangles : List Int) (numTris : CInt)
    (indices : List Int) (numConstraints : CInt) (maxIter : CInt) :
    (∀ created : ARAPSim α σ,
      ARAPSim.construct igl points numPoints triangles numTris indices numConstraints maxIter
        = some created →
      ∀ (calls : List (List α × List α)) (sim : ARAPSim α σ),
        ARAPSim.Steps igl created calls = some sim →
        (sim.b.rows = numConstraints.val.toNat ∧ sim.b.cols = 1 ∧
          ∀ k, k < numConstraints.val.toNat → indices[k]? = some (sim.b.coeff k 0)) ∧
        ∀ (values solution : List α) (bc : Mat α),
          ArrayToMatrix values (Mat.create sim.b.size sim.V.cols) = some bc →
          bc.rows = numConstraints.val.toNat ∧ bc.cols = 3 ∧
          (∀ k j, k < numConstraints.val.toNat → j < 3 →
            values[3 * k + j]? = some (bc.coeff k j)) ∧
          sim.Step igl values solution =
            (MatrixToArray (igl.arap_solve bc sim.arap_data sim.U).2.2 solution).map
              (fun out =>
                ({ sim with
                    arap_data := { sim.arap_data with
                      state := (igl.arap_solve bc sim.arap_data sim.U).2.1 },
                    U := (igl.arap_solve bc sim.arap_data sim.U).2.2 }, out))) ∧
    (∀ n t c : Nat,
      numPoints.val = (n : Int) → numTris.val = (t : Int) → numConstraints.val = (c : Int) →
      3 * n ≤ INT_MAX → 3 * t ≤ INT_MAX →
      3 * n ≤ points.length → 3 * t ≤ triangles.length → c ≤ indices.length →
      ∃ created : ARAPSim α σ,
        ARAPSim.construct igl points numPoints triangles numTris indices numConstraints
          maxIter = some created ∧
        ∀ (calls : List (List α × List α)) (sim : ARAPSim α σ),
          ARAPSim.Steps igl created calls = some sim →
          ∀ values : List α, 3 * c ≤ INT_MAX → 3 * c ≤ values.length →
            ∃ bc : Mat α,
              ArrayToMatrix values (Mat.create sim.b.size sim.V.cols) = some bc) := by
  constructor
  · intro created hnew calls sim hrun
    obtain ⟨-, -, ⟨-, hVc, -⟩, -, ⟨hbr, hbc, hbe⟩, -⟩ :=
      construct_of_some igl points numPoints triangles numTris indices numConstraints
        maxIter created hnew
    obtain ⟨hV, -, -, hb⟩ := ARAPSim.Steps_frame igl calls created sim hrun
    refine ⟨by rw [hb]; exact ⟨hbr, hbc, hbe⟩, ?_⟩
    intro values solution bc hbcm
    have hsize : sim.b.size = numConstraints.val.toNat := by
      rw [hb, Mat.size, hbr, hbc, Nat.mul_one]
    have hcols : sim.V.cols = 3 := by rw [hV, hVc]
    have hC := numConstraints.property.2
    obtain ⟨-, hr, hc3, he⟩ :=
      ArrayToMatrix_of_some values (Mat.create sim.b.size sim.V.cols) bc
        (by simp only [Mat.create, hsize, INT_MAX]; omega)
        (by simp only [Mat.create, hcols, INT_MAX]; decide) hbcm
    simp only [Mat.create, hsize, hcols] at hr hc3 he
    refine ⟨hr, hc3, ?_, ARAPSim.Step_eq igl sim values solution bc hbcm⟩
    intro k j hk hj
    have h := he k j hk hj
    rw [Nat.mul_comm] at h
    exact h
  · intro n t c hn ht hc hnmax htmax hp htl hcl
    obtain ⟨V, F, b, hsim, ⟨-, hVc, -⟩, -, ⟨hbr, hbc, -⟩⟩ :=
      construct_spec igl points numPoints triangles numTris indices numConstraints maxIter
        n t c hn ht hc hnmax htmax hp htl hcl
    refine ⟨_, hsim, ?_⟩
    intro calls sim hrun values hcmax hlen
    obtain ⟨hV, -, -, hb⟩ := ARAPSim.Steps_frame igl calls _ sim hrun
    simp only at hV hb
    have hsize : sim.b.size = c := by
      rw [hb, Mat.size, hbr, hbc, Nat.mul_one]
    have hcols : sim.V.cols = 3 := by rw [hV, hVc]
    obtain ⟨bc, hbcm, -⟩ :=
      ArrayToMatrix_spec values (Mat.create sim.b.size sim.V.cols)
        (by simp only [Mat.create, hsize, hcols]; omega)
        (by simp only [Mat.create, hsize, hcols]; omega)
    exact ⟨bc, hbcm⟩

/-- C4 at a concrete input: a square with constraints on vertices 3 and 1, in that
order; after one `Step` call a second one passes the targets to the solver row by
row, the first row for vertex 3 and the second for vertex 1. -/
theorem constraint_order_preserved_witness :
    ∃ (created sim : ARAPSim Int VectorXi) (bc : Mat Int),
      ARAPSim.construct pinningIgl [0, 0, 0, 1, 0, 0, 1, 1, 0, 0, 1, 0] ⟨4, by decide⟩
        [0, 1, 2, 0, 2, 3] ⟨2, by decide⟩ [3, 1] ⟨2, by decide⟩ ⟨10, by decide⟩
        = some created ∧
      ARAPSim.Steps pinningIgl created
        [([0, 1, 5, 1, 0, 5], [0, 0, 0, 0, 0, 0, 0, 0, 0, 0, 0, 0])] = some sim ∧
      sim.b.coeff 0 0 = 3 ∧ sim.b.coeff 1 0 = 1 ∧
      ArrayToMatrix [20, 21, 22, 30, 31, 32] (Mat.create sim.b.size sim.V.cols) = some bc ∧
      bc.coeff 0 1 = 21 ∧ bc.coeff 1 2 = 32 := by
  obtain ⟨hpart, htotal⟩ :=
    constraint_order_preserved pinningIgl [0, 0, 0, 1, 0, 0, 1, 1, 0, 0, 1, 0] ⟨4, by decide⟩
      [0, 1, 2, 0, 2, 3] ⟨2, by decide⟩ [3, 1] ⟨2, by decide⟩ ⟨10, by decide⟩
  obtain ⟨created, hnew, hall⟩ :=
    htotal 4 2 2 rfl rfl rfl (by decide) (by decide) (by decide) (by decide) (by decide)
  have hsome : (ARAPSim.Steps pinningIgl created
      [([0, 1, 5, 1, 0, 5], [0, 0, 0, 0, 0, 0, 0, 0, 0, 0, 0, 0])]).isSome = true := by
    have hd : ((ARAPSim.construct pinningIgl [0, 0, 0, 1, 0, 0, 1, 1, 0, 0, 1, 0]
        ⟨4, by decide⟩ [0, 1, 2, 0, 2, 3] ⟨2, by decide⟩ [3, 1] ⟨2, by decide⟩
        ⟨10, by decide⟩).bind (fun s => ARAPSim.Steps pinningIgl s
          [([0, 1, 5, 1, 0, 5], [0, 0, 0, 0, 0, 0, 0, 0, 0, 0, 0, 0])])).isSome = true := by
      decide
    rw [hnew] at hd
    exact hd
  obtain ⟨sim, hrun⟩ := Option.isSome_iff_exists.mp hsome
  obtain ⟨bc, hbc⟩ := hall _ sim hrun [20, 21, 22, 30, 31, 32] (by decide) (by decide)
  obtain ⟨⟨-, -, hb⟩, hstep⟩ := hpart created hnew _ sim hrun
  obtain ⟨-, -, he, -⟩ := hstep [20, 21, 22, 30, 31, 32] [] bc hbc
  refine ⟨created, sim, bc, hnew, hrun, ?_, ?_, hbc, ?_, ?_⟩
  · simpa using (hb 0 (by decide)).symm
  · simpa using (hb 1 (by decide)).symm
  · simpa using (he 0 1 (by decide) (by decide)).symm
  · simpa using (he 1 2 (by decide) (by decide)).symm

/-! ## The exported functions: what is and is not checked -/

/-- The exported `Step` on a live handle is the method `Step` of its session. -/
theorem Step_live {α σ : Type} [Inhabited α] (igl : Igl α σ) (heap : Heap α σ)
    (handle : Handle) (sim : ARAPSim α σ) (cpv solution : List α)
    (after : ARAPSim α σ × List α)
    (hlive : heap[handle]? = some (some sim))
    (hstep : sim.Step igl cpv solution = some after) :
    Step igl heap handle cpv solution
      = Outcome.returned (heap.set handle (some after.1), after.2) := by
  simp only [Step, hlive, hstep]

/-- The exported `Initialize` returns whenever the constructor does, with the new
session in a fresh live cell. -/
theorem Initialize_returned {α σ : Type} [Inhabited α] (igl : Igl α σ) (heap : Heap α σ)
    (points : List α) (numPoints : CInt) (triangles : List Int) (numTris : CInt)
    (indices : List Int) (numConstraints : CInt) (maxIter : CInt) (sim : ARAPSim α σ)
    (h : ARAPSim.construct igl points numPoints triangles numTris indices numConstraints
      maxIter = some sim) :
    Initialize igl heap points numPoints triangles numTris indices numConstraints maxIter
        = Outcome.returned (heap.length, heap ++ [some sim]) ∧
      (heap ++ [some sim])[heap.length]? = some (some sim) := by
  refine ⟨by simp only [Initialize, h], ?_⟩
  simp

/-- The exported `Step` returns on a live session when the counts are within reach of
the `int` indexer, every constraint has its target, the solve of this call leaves `U`
as `n x 3`, and the output buffer has `3 * n` places. -/
theorem Step_returns {α σ : Type} [Inhabited α] (igl : Igl α σ) (heap : Heap α σ)
    (handle : Handle) (sim : ARAPSim α σ) (n : Nat) (cpv solution : List α)
    (hlive : heap[handle]? = some (some sim))
    (hcpvmax : sim.b.size * sim.V.cols ≤ INT_MAX)
    (hcpv : sim.b.size * sim.V.cols ≤ cpv.length)
    (hshape : ∀ bc, ArrayToMatrix cpv (Mat.create sim.b.size sim.V.cols) = some bc →
      (igl.arap_solve bc sim.arap_data sim.U).2.2.rows = n ∧
      (igl.arap_solve bc sim.arap_data sim.U).2.2.cols = 3)
    (hmax : 3 * n ≤ INT_MAX)
    (hsol : 3 * n ≤ solution.length) :
    ∃ result, Step igl heap handle cpv solution = Outcome.returned result := by
  obtain ⟨bc, hbc, -, -, -, -⟩ :=
    ArrayToMatrix_spec cpv (Mat.create sim.b.size sim.V.cols) hcpvmax hcpv
  obtain ⟨hr, hc⟩ := hshape bc hbc
  obtain ⟨out, hout, -⟩ :=
    MatrixToArray_spec (igl.arap_solve bc sim.arap_data sim.U).2.2 solution
      (by rw [hr, hc]; omega) (by rw [hr, hc]; omega)
  have hstep := ARAPSim.Step_eq igl sim cpv solution bc hbc
  rw [hout] at hstep
  exact ⟨_, Step_live igl heap handle sim cpv solution _ hlive hstep⟩

/-- C5, as stated, fails: on a triangle, `Initialize` with `numConstraints = 0` does
not fail with `EmptyConstraintSet`; it returns handle 0, a live session, on which
`Step` then runs and writes the nine coordinates. -/
theorem Initialize_empty_constraints_counterexample :
    Initialize pinningIgl [] [0, 0, 0, 4, 0, 0, 0, 5, 0] ⟨3, by decide⟩ [0, 1, 2]
        ⟨1, by decide⟩ [] ⟨0, by decide⟩ ⟨10, by decide⟩
      ≠ Outcome.failed ErrorKind.EmptyConstraintSet ∧
    ∃ (heap after : Heap Int VectorXi),
      Initialize pinningIgl [] [0, 0, 0, 4, 0, 0, 0, 5, 0] ⟨3, by decide⟩ [0, 1, 2]
          ⟨1, by decide⟩ [] ⟨0, by decide⟩ ⟨10, by decide⟩
        = Outcome.returned (0, heap) ∧
      Step pinningIgl heap 0 [] [1, 1, 1, 1, 1, 1, 1, 1, 1]
        = Outcome.returned (after, [0, 0, 0, 4, 0, 0, 0, 5, 0]) := by
  constructor
  · intro h
    have hr : ∃ heap : Heap Int VectorXi,
        Initialize pinningIgl [] [0, 0, 0, 4, 0, 0, 0, 5, 0] ⟨3, by decide⟩ [0, 1, 2]
            ⟨1, by decide⟩ [] ⟨0, by decide⟩ ⟨10, by decide⟩
          = Outcome.returned (0, heap) := ⟨_, rfl⟩
    obtain ⟨heap, hheap⟩ := hr
    rw [hheap] at h
    cases h
  · exact ⟨_, _, rfl, rfl⟩

/-- C5, amended.  Creation with an empty constraint list is not rejected.  For every
mesh whose counts the `int` indexer can reach (`3 * numPoints` and `3 * numTris` at
most `INT_MAX`) and whose buffers hold the announced numbers of elements,
`Initialize` with `numConstraints = 0` reports no error and returns a fresh handle to
a live session whose constraint vector `b` is empty; a `Step` call on that handle
whose solve leaves `U` as `numPoints x 3`, with an output buffer of `3 * numPoints`
places, returns. -/
theorem Initialize_empty_constraints {α σ : Type} [Inhabited α] (igl : Igl α σ)
    (heap : Heap α σ)
    (points : List α) (numPoints : CInt) (triangles : List Int) (numTris : CInt)
    (indices : List Int) (numConstraints : CInt) (maxIter : CInt)
    (n t : Nat)
    (hn : numPoints.val = (n : Int)) (ht : numTris.val = (t : Int))
    (hc : numConstraints.val = 0)
    (hnmax : 3 * n ≤ INT_MAX) (htmax : 3 * t ≤ INT_MAX)
    (hp : 3 * n ≤ points.length) (htl : 3 * t ≤ triangles.length) :
    ∃ sim : ARAPSim α σ,
      Initialize igl heap points numPoints triangles numTris indices numConstraints maxIter
        = Outcome.returned (heap.length, heap ++ [some sim]) ∧
      (heap ++ [some sim])[heap.length]? = some (some sim) ∧
      sim.b.size = 0 ∧
      (∀ e, Initialize igl heap points numPoints triangles numTris indices numConstraints
        maxIter ≠ Outcome.failed e) ∧
      (∀ values solution : List α,
        (∀ bc, ArrayToMatrix values (Mat.create sim.b.size sim.V.cols) = some bc →
          (igl.arap_solve bc sim.arap_data sim.U).2.2.rows = n ∧
          (igl.arap_solve bc sim.arap_data sim.U).2.2.cols = 3) →
        3 * n ≤ solution.length →
        ∃ result, Step igl (heap ++ [some sim]) heap.length values solution
          = Outcome.returned result) := by
  obtain ⟨V, F, b, hsim, -, -, ⟨hbr, hbc, -⟩⟩ :=
    construct_spec igl points numPoints triangles numTris indices numConstraints maxIter
      n t 0 hn ht (by rw [hc]; rfl) hnmax htmax hp htl (Nat.zero_le _)
  obtain ⟨hret, hlive⟩ := Initialize_returned igl heap points numPoints triangles numTris
    indices numConstraints maxIter _ hsim
  have hsize : b.size = 0 := by rw [Mat.size, hbr, Nat.zero_mul]
  refine ⟨_, hret, hlive, hsize, ?_, ?_⟩
  · intro e h
    rw [hret] at h
    cases h
  · intro values solution hshape hsol
    exact Step_returns igl _ _ _ n values solution hlive
      (by simp only [hsize, Nat.zero_mul, Nat.zero_le])
      (by simp only [hsize, Nat.zero_mul, Nat.zero_le]) hshape hnmax hsol

/-- C5, amended, at a concrete input: a triangle with no constraint. -/
theorem Initialize_empty_constraints_witness :
    ∃ sim : ARAPSim Int VectorXi,
      Initialize pinningIgl [] [0, 0, 0, 4, 0, 0, 0, 5, 0] ⟨3, by decide⟩ [0, 1, 2]
          ⟨1, by decide⟩ [] ⟨0, by decide⟩ ⟨10, by decide⟩
        = Outcome.returned (0, [some sim]) ∧
      sim.b.size = 0 ∧
      ∃ result, Step pinningIgl [some sim] 0 [] [1, 1, 1, 1, 1, 1, 1, 1, 1]
        = Outcome.returned result := by
  obtain ⟨sim, hret, -, hsize, -, hstep⟩ :=
    Initialize_empty_constraints pinningIgl [] [0, 0, 0, 4, 0, 0, 0, 5, 0] ⟨3, by decide⟩
      [0, 1, 2] ⟨1, by decide⟩ [] ⟨0, by decide⟩ ⟨10, by decide⟩ 3 1 rfl rfl rfl
      (by decide) (by decide) (by decide) (by decide)
  have hU : sim.U.rows = 3 ∧ sim.U.cols = 3 := by
    have hr : ∃ heap : Heap Int VectorXi,
        Initialize pinningIgl [] [0, 0, 0, 4, 0, 0, 0, 5, 0] ⟨3, by decide⟩ [0, 1, 2]
            ⟨1, by decide⟩ [] ⟨0, by decide⟩ ⟨10, by decide⟩
          = Outcome.returned (0, heap) ∧
        (heap[0]?.bind id).map (fun s => (s.U.rows, s.U.cols)) = some (3, 3) :=
      ⟨_, rfl, rfl⟩
    obtain ⟨heap, hheap, hshape⟩ := hr
    rw [hret] at hheap
    cases hheap
    simpa using hshape
  exact ⟨sim, hret, hsize,
    hstep [] [1, 1, 1, 1, 1, 1, 1, 1, 1] (fun _ _ => hU) (by decide)⟩

/-- The exported `Dispose` returns on live handles only, and frees the cell. -/
theorem Dispose_returned {α σ : Type} (heap heap' : Heap α σ) (handle : Handle)
    (h : Dispose heap handle = Outcome.returned heap') :
    (∃ sim, heap[handle]? = some (some sim)) ∧ heap' = heap.set handle none ∧
      heap'[handle]? = some none := by
  unfold Dispose at h
  split at h
  · next sim hsim =>
    have hlt : handle < heap.length := by
      rcases List.getElem?_eq_some.mp hsim with ⟨hlt, -⟩
      exact hlt
    cases h
    exact ⟨⟨sim, hsim⟩, rfl, List.getElem?_set_self hlt⟩
  · cases h

/-- C7, as stated, fails: after `Initialize` and `Dispose`, a `Step` call and a second
`Dispose` call on the same handle do not fail with `UseAfterDispose`; nothing checks
the handle and both calls use the freed address, which is undefined behaviour. -/
theorem Step_after_Dispose_counterexample :
    ∃ (heap disposed : Heap Int VectorXi),
      Initialize pinningIgl [] [0, 0, 0, 4, 0, 0, 0, 5, 0] ⟨3, by decide⟩ [0, 1, 2]
          ⟨1, by decide⟩ [2] ⟨1, by decide⟩ ⟨10, by decide⟩
        = Outcome.returned (0, heap) ∧
      Dispose heap 0 = Outcome.returned disposed ∧
      Step pinningIgl disposed 0 [7, 8, 9] [1, 1, 1, 1, 1, 1, 1, 1, 1]
        ≠ Outcome.failed ErrorKind.UseAfterDispose ∧
      Step pinningIgl disposed 0 [7, 8, 9] [1, 1, 1, 1, 1, 1, 1, 1, 1] = Outcome.undefined ∧
      (Dispose disposed 0 : Outcome (Heap Int VectorXi))
        ≠ Outcome.failed ErrorKind.UseAfterDispose ∧
      Dispose disposed 0 = Outcome.undefined := by
  refine ⟨_, _, rfl, rfl, ?_, rfl, ?_, rfl⟩
  · intro h
    have hu : Step pinningIgl [none] 0 [7, 8, 9] [1, 1, 1, 1, 1, 1, 1, 1, 1]
        = Outcome.undefined := rfl
    exact Outcome.noConfusion (hu.symm.trans h)
  · intro h
    have hu : (Dispose [none] 0 : Outcome (Heap Int VectorXi)) = Outcome.undefined := rfl
    exact Outcome.noConfusion (hu.symm.trans h)

/-- C7, amended.  Disposed sessions are not guarded.  Whenever `Dispose` returns on a
handle, it has freed the session's cell and recorded nothing else; every `Step` call
and every further `Dispose` call on that handle, made before anything else touches
the heap, does not fail with `UseAfterDispose` but uses the freed address, which is
undefined behaviour. -/
theorem Dispose_then_undefined {α σ : Type} [Inhabited α] (igl : Igl α σ)
    (heap disposed : Heap α σ) (handle : Handle)
    (h : Dispose heap handle = Outcome.returned disposed) :
    disposed = heap.set handle none ∧
    (∀ values solution : List α,
      Step igl disposed handle values solution = Outcome.undefined ∧
      Step igl disposed handle values solution
        ≠ Outcome.failed ErrorKind.UseAfterDispose) ∧
    Dispose disposed handle = Outcome.undefined ∧
    Dispose disposed handle ≠ Outcome.failed ErrorKind.UseAfterDispose := by
  obtain ⟨-, hset, hfreed⟩ := Dispose_returned heap disposed handle h
  have hstep : ∀ values solution : List α,
      Step igl disposed handle values solution = Outcome.undefined := by
    intro values solution
    simp only [Step, hfreed]
  have hdis : Dispose disposed handle = Outcome.undefined := by
    simp only [Dispose, hfreed]
  refine ⟨hset, fun values solution => ⟨hstep values solution, ?_⟩, hdis, ?_⟩
  · rw [hstep values solution]
    exact fun h => Outcome.noConfusion h
  · rw [hdis]
    exact fun h => Outcome.noConfusion h

/-- C7, amended, at a concrete input: the triangle session, disposed, then stepped
and disposed again. -/
theorem Dispose_then_undefined_witness :
    Dispose [some triangleSim] 0 = Outcome.returned [none] ∧
    Step pinningIgl [none] 0 [7, 8, 9] [1, 1, 1, 1, 1, 1, 1, 1, 1] = Outcome.undefined ∧
    (Dispose [none] 0 : Outcome (Heap Int VectorXi)) = Outcome.undefined := by
  have h := Dispose_then_undefined pinningIgl [some triangleSim] [none] 0 rfl
  exact ⟨rfl, (h.2.1 [7, 8, 9] [1, 1, 1, 1, 1, 1, 1, 1, 1]).1, h.2.2.1⟩

end ExternalAccess
